import Mathlib

/-!
Shallow embedding of the Nukleus lexer (`nk-lexer/src/lex_new_new/mod.rs`).

The scanner is a character-level state machine: `Lexer::run` consumes one
character per step (`next_char` advances byte offsets and line/column
counters), peeks one character ahead, and dispatches on the current
`State`.  We model the loop body as `runBody`, the loop as `runLoop`, the
whole scan (including the end-of-input unterminated-string check and the
fatal `report_error` path) as `runLex`.

Strings are modelled as `List Char`; buffer offsets are byte offsets, as in
the Rust code, computed with `Char.utf8Size`.  The classification tables
live in submodules (`symbol.rs`, `identifier.rs`, `value.rs`, `errors.rs`,
`tokens_new`) that are not part of the examined sources; they are modelled
from the spec and marked `Modelled from the spec:` below.
-/

namespace Nukleus

/-- Byte length of a character sequence, mirroring Rust `str::len` /
`char::len_utf8` accounting. -/
def utf8Len : List Char → Nat
  | [] => 0
  | c :: cs => c.utf8Size + utf8Len cs

/-- Drop the first `n` bytes of a character sequence (byte-offset slicing
helper; on the char-aligned offsets produced by the scanner this matches
Rust's `&s[n..]`). -/
def dropBytes : List Char → Nat → List Char
  | s, 0 => s
  | [], _ => []
  | c :: cs, n + 1 => dropBytes cs (n + 1 - c.utf8Size)

/-- Take the first `n` bytes of a character sequence (byte-offset slicing
helper; on char-aligned offsets this matches Rust's `&s[..n]`). -/
def takeBytes : List Char → Nat → List Char
  | _, 0 => []
  | [], _ => []
  | c :: cs, n + 1 => if c.utf8Size ≤ n + 1 then c :: takeBytes cs (n + 1 - c.utf8Size) else []

/-- Byte slice `&source[st..ed]`, as used for the scanner's buffer. -/
def sliceBytes (s : List Char) (st ed : Nat) : List Char :=
  takeBytes (dropBytes s st) (ed - st)

/-- Rust `str::trim_matches` with a `char` pattern: repeatedly strip the
character from both ends. -/
def trimMatchesChar (q : Char) (s : List Char) : List Char :=
  ((s.dropWhile (· = q)).reverse.dropWhile (· = q)).reverse

/-- Rust `char::is_whitespace` (the Unicode `White_Space` property). -/
def rust_is_whitespace (c : Char) : Bool :=
  c = ' ' || c = '\t' || c = '\n' || c = '\r' || c = '\x0b' || c = '\x0c' ||
  c = '\u0085' || c = '\u00A0' || c = '\u1680' ||
  (0x2000 ≤ c.toNat && c.toNat ≤ 0x200a) ||
  c = '\u2028' || c = '\u2029' || c = '\u202F' || c = '\u205F' || c = '\u3000'

/-- Rust `char::is_numeric`, restricted to the ASCII decimal digits that the
language's numeric literals are made of (spec: "Numeric literals greedily
consume only digit characters"). -/
def rust_is_numeric (c : Char) : Bool := c.isDigit

/-- Modelled from the spec: the `Symbol` token kind of the missing
`tokens_new` module (single- or double-character punctuation: parentheses,
braces, colon, semicolon, arrow, comment-marker, ...). -/
inductive Symbol where
  | OpenParen | CloseParen | OpenBrace | CloseBrace
  | Colon | Semicolon | Comma | Arrow | Comment
deriving DecidableEq, Repr

/-- Modelled from the spec: the `Operator` token kind (arithmetic and
comparison operators). -/
inductive Operator where
  | Add | Subtract | Multiply | Divide | Remainder
  | Less | Greater | Equals | NotEquals | LessEq | GreaterEq
deriving DecidableEq, Repr

/-- Modelled from the spec: the `Assign` token kind (assignment operator). -/
inductive Assign where
  | Assign
deriving DecidableEq, Repr

/-- Modelled from the spec: the `Statement` token kind (reserved keywords:
function, let, return, println, public, ...). -/
inductive Statement where
  | Function | Let | Return | Println | Public
deriving DecidableEq, Repr

/-- Modelled from the spec: the `TypeName` token kind (built-in type
keywords: integer, string, void, ...). -/
inductive TypeName where
  | I32 | I64 | Bool | Void | QuotedString
deriving DecidableEq, Repr

/-- Modelled from the spec: the `TypeValue` token kind (literal payloads:
numeric literal as decimal text, quoted-string literal, bare identifier). -/
inductive TypeValue where
  | Number (s : String)
  | QuotedString (s : String)
  | Identifier (s : String)
deriving DecidableEq, Repr

/-- Modelled from the spec: the `Token` tagged value of `tokens_new`. -/
inductive Token where
  | Symbol (s : Symbol)
  | Operator (o : Operator)
  | Assign (a : Assign)
  | Statement (s : Statement)
  | TypeName (t : TypeName)
  | TypeValue (v : TypeValue)
deriving DecidableEq, Repr

/-- Modelled from the spec: the `LexError` cause tags of the missing
`errors.rs` (invalid character, type name, number, identifier, operator,
symbol, statement, double-symbol, unterminated quoted string). -/
inductive LexError where
  | InvalidCharacter (c : Char)
  | InvalidTypeName (s : String)
  | InvalidNumber (s : String)
  | InvalidIdentifier (s : String)
  | InvalidOperator (s : String)
  | InvalidSymbol (s : String)
  | InvalidStatement (s : String)
  | InvalidDoubleSymbol (s : String)
  | ExpectedQuote
deriving DecidableEq, Repr

/-- The `LexcialError` record of `errors.rs` (name as in the source):
an error cause positioned at a line and column. -/
structure LexcialError where
  line : Nat
  column : Nat
  message : LexError
deriving DecidableEq, Repr

/-- The lexer's `State` enum (`lex_new_new/mod.rs`, lines 25-34). -/
inductive State where
  | EmptyState | DefaultState | Number | Identifier
  | QuotedString | DoubleState | Comment
deriving DecidableEq, Repr

/-- The mutable fields of `Lexer` (`lex_new_new/mod.rs`, lines 36-45); the
source text and the remaining character iterator are passed separately. -/
structure LexerSt where
  tokens : List Token
  state : State
  buffer_st : Nat
  buffer_ed : Nat
  line : Nat
  column : Nat
deriving DecidableEq, Repr

/-- Initial scanner state, as built by `Lexer::new`. -/
def initLexer : LexerSt :=
  { tokens := [], state := State.EmptyState, buffer_st := 0, buffer_ed := 0
    line := 1, column := 1 }

/-- Modelled from the spec: `symbol::double_symbol_to_token` of the missing
`symbol.rs` — the double-character symbol table ("->" arrow, "//" comment
opener, comparison double-symbols). -/
def double_symbol_to_token (s : List Char) (line column : Nat) :
    Except LexcialError Token :=
  if s = ['-', '>'] then .ok (Token.Symbol Symbol.Arrow)
  else if s = ['/', '/'] then .ok (Token.Symbol Symbol.Comment)
  else if s = ['=', '='] then .ok (Token.Operator Operator.Equals)
  else if s = ['!', '='] then .ok (Token.Operator Operator.NotEquals)
  else if s = ['<', '='] then .ok (Token.Operator Operator.LessEq)
  else if s = ['>', '='] then .ok (Token.Operator Operator.GreaterEq)
  else .error ⟨line, column, LexError.InvalidDoubleSymbol (String.mk s)⟩

/-- Modelled from the spec: `symbol::symbol_to_token` of the missing
`symbol.rs` — the single-character symbol table. -/
def symbol_to_token (c : Char) (line column : Nat) : Except LexcialError Token :=
  if c = '(' then .ok (Token.Symbol Symbol.OpenParen)
  else if c = ')' then .ok (Token.Symbol Symbol.CloseParen)
  else if c = '{' then .ok (Token.Symbol Symbol.OpenBrace)
  else if c = '}' then .ok (Token.Symbol Symbol.CloseBrace)
  else if c = ':' then .ok (Token.Symbol Symbol.Colon)
  else if c = ';' then .ok (Token.Symbol Symbol.Semicolon)
  else if c = ',' then .ok (Token.Symbol Symbol.Comma)
  else .error ⟨line, column, LexError.InvalidSymbol (String.mk [c])⟩

/-- Modelled from the spec: `symbol::operator_to_token` of the missing
`symbol.rs` — the single-character operator/assignment table ('-' is the
arithmetic subtraction operator). -/
def operator_to_token (c : Char) (line column : Nat) : Except LexcialError Token :=
  if c = '+' then .ok (Token.Operator Operator.Add)
  else if c = '-' then .ok (Token.Operator Operator.Subtract)
  else if c = '*' then .ok (Token.Operator Operator.Multiply)
  else if c = '/' then .ok (Token.Operator Operator.Divide)
  else if c = '%' then .ok (Token.Operator Operator.Remainder)
  else if c = '<' then .ok (Token.Operator Operator.Less)
  else if c = '>' then .ok (Token.Operator Operator.Greater)
  else if c = '=' then .ok (Token.Assign Assign.Assign)
  else .error ⟨line, column, LexError.InvalidOperator (String.mk [c])⟩

/-- Modelled from the spec: `identifier::is_quote` of the missing
`identifier.rs`. -/
def is_quote (c : Char) : Bool := c = '"'

/-- Modelled from the spec: `identifier::is_first_identifierable` of the
missing `identifier.rs` — identifier-start characters (letters and
underscore). -/
def is_first_identifierable (c : Char) : Bool := c.isAlpha || c = '_'

/-- Modelled from the spec: `identifier::is_identifierable` of the missing
`identifier.rs` — identifier-continuation characters. -/
def is_identifierable (c : Char) : Bool := c.isAlphanum || c = '_'

/-- Modelled from the spec: `identifier::statement_to_token` of the missing
`identifier.rs` — the reserved statement keyword table. -/
def statement_to_token (s : List Char) (line column : Nat) :
    Except LexcialError Token :=
  if String.mk s = "fn" then .ok (Token.Statement Statement.Function)
  else if String.mk s = "let" then .ok (Token.Statement Statement.Let)
  else if String.mk s = "return" then .ok (Token.Statement Statement.Return)
  else if String.mk s = "println" then .ok (Token.Statement Statement.Println)
  else if String.mk s = "public" then .ok (Token.Statement Statement.Public)
  else .error ⟨line, column, LexError.InvalidStatement (String.mk s)⟩

/-- Modelled from the spec: `identifier::type_name_to_token` of the missing
`identifier.rs` — the built-in type-name keyword table. -/
def type_name_to_token (s : List Char) (line column : Nat) :
    Except LexcialError Token :=
  if String.mk s = "i32" then .ok (Token.TypeName TypeName.I32)
  else if String.mk s = "i64" then .ok (Token.TypeName TypeName.I64)
  else if String.mk s = "bool" then .ok (Token.TypeName TypeName.Bool)
  else if String.mk s = "Void" then .ok (Token.TypeName TypeName.Void)
  else if String.mk s = "String" then .ok (Token.TypeName TypeName.QuotedString)
  else .error ⟨line, column, LexError.InvalidTypeName (String.mk s)⟩

/-- Modelled from the spec: validity of a numeric-literal span for
`value::number_to_token` of the missing `value.rs` — decimal text, an
optional leading minus sign followed by decimal digits. -/
def numberValid : List Char → Bool
  | [] => false
  | c :: rest =>
    if c = '-' then !rest.isEmpty && rest.all (·.isDigit)
    else (c :: rest).all (·.isDigit)

/-- Modelled from the spec: `value::number_to_token` of the missing
`value.rs` — parse the buffered span as a numeric literal token, failing
with an invalid-number error on malformed text. -/
def number_to_token (s : List Char) (line column : Nat) :
    Except LexcialError Token :=
  if numberValid s then .ok (Token.TypeValue (TypeValue.Number (String.mk s)))
  else .error ⟨line, column, LexError.InvalidNumber (String.mk s)⟩

/-- The `Lexer::next_char` step (`lex_new_new/mod.rs`, lines 215-230): advance the
line/column counters and the buffer end offset for the consumed character.
On a newline the column is reset to `'\n'.len_utf8()`, i.e. `1`. -/
def nextCharUpd (l : LexerSt) (c : Char) : LexerSt :=
  if c = '\n' then
    { l with line := l.line + 1, column := '\n'.utf8Size,
             buffer_ed := l.buffer_ed + '\n'.utf8Size }
  else
    { l with column := l.column + c.utf8Size,
             buffer_ed := l.buffer_ed + c.utf8Size }

/-- Lines 136-139 of `Lexer::run`: `first_char`, the first character of
the pending buffer slice.  The `unwrap` is modelled by `headD '\x00'`: on
every state the run loop can reach the classification block the buffer
slice is non-empty, and `'\x00'` is inert for each subsequent test. -/
def firstBufChar (source : List Char) (l : LexerSt) : Char :=
  (sliceBytes source l.buffer_st l.buffer_ed).headD '\x00'

/-- Lines 140-142 of `Lexer::run`: enter `Number` from `DefaultState` when
the first buffered character is `'-'` or a digit. -/
def toNumberState (source : List Char) (l : LexerSt) : LexerSt :=
  if l.state = State.DefaultState ∧
      (firstBufChar source l = '-' ∨ rust_is_numeric (firstBufChar source l))
    then { l with state := State.Number } else l

/-- Lines 179-182 of `Lexer::run`: enter `Identifier` from `DefaultState`
when the first buffered character can start an identifier. -/
def toIdentifierState (source : List Char) (l : LexerSt) : LexerSt :=
  if l.state = State.DefaultState ∧ is_first_identifierable (firstBufChar source l)
    then { l with state := State.Identifier } else l

/-- Lines 136-204 of `Lexer::run`: number, quoted-string and
identifier/keyword handling, reached when the current step neither hit an
early `continue` nor emitted a symbol/operator token.  The in-place state
mutations of lines 140-142 and 179-182 appear as `toNumberState` and
`toIdentifierState`; they only ever change the `state` field, so the buffer
offsets and counters the branches read are those of `l`. -/
def classifyRest (source : List Char) (l : LexerSt) (c p : Char) :
    Except (LexcialError × LexerSt) LexerSt :=
  if (toNumberState source l).state = State.Number ∧ ¬ rust_is_numeric p then
    -- lines 143-159: close the numeric literal
    match number_to_token (sliceBytes source l.buffer_st l.buffer_ed) l.line l.column with
    | .ok tok =>
      .ok { toNumberState source l with
            tokens := l.tokens ++ [tok], buffer_st := l.buffer_ed,
            state := State.EmptyState }
    | .error e => .error (e, toNumberState source l)
  else if (toNumberState source l).state = State.DefaultState ∧
      is_quote (firstBufChar source l) then
    -- line 162: open a quoted string
    .ok { toNumberState source l with state := State.QuotedString }
  else if (toNumberState source l).state = State.QuotedString ∧ ¬ is_quote c then
    -- line 165: accumulate inside the quoted string
    .ok (toNumberState source l)
  else if (toNumberState source l).state = State.QuotedString ∧ is_quote c then
    -- lines 167-176: close the quoted string, stripping the quote marks
    .ok { toNumberState source l with
          tokens := l.tokens ++ [Token.TypeValue (TypeValue.QuotedString
            (String.mk (trimMatchesChar '"' (sliceBytes source l.buffer_st l.buffer_ed))))],
          buffer_st := l.buffer_ed, state := State.EmptyState }
  else if (toIdentifierState source (toNumberState source l)).state = State.Identifier ∧
      ¬ is_identifierable p then
    -- lines 183-204: classify keyword > type name > identifier
    match statement_to_token (sliceBytes source l.buffer_st l.buffer_ed) l.line l.column with
    | .ok tok =>
      .ok { toIdentifierState source (toNumberState source l) with
            tokens := l.tokens ++ [tok], buffer_st := l.buffer_ed,
            state := State.EmptyState }
    | .error _ =>
      match type_name_to_token (sliceBytes source l.buffer_st l.buffer_ed) l.line l.column with
      | .ok tok =>
        .ok { toIdentifierState source (toNumberState source l) with
              tokens := l.tokens ++ [tok], buffer_st := l.buffer_ed,
              state := State.EmptyState }
      | .error _ =>
        .ok { toIdentifierState source (toNumberState source l) with
              tokens := l.tokens ++ [Token.TypeValue (TypeValue.Identifier
                (String.mk (sliceBytes source l.buffer_st l.buffer_ed)))],
              buffer_st := l.buffer_ed, state := State.EmptyState }
  else .ok (toIdentifierState source (toNumberState source l))

/-- Lines 116-132 of `Lexer::run`: single-character symbol and operator
tables, tried when the double-symbol lookahead produced no match; on no
match the state becomes `DefaultState` and control falls through to the
longer-lexeme rules. -/
def singlePhase (source : List Char) (l : LexerSt) (c p : Char) :
    Except (LexcialError × LexerSt) LexerSt :=
  match symbol_to_token c l.line l.column with
  | .ok tok => .ok { l with tokens := l.tokens ++ [tok], buffer_st := l.buffer_ed }
  | .error _ =>
    match operator_to_token c l.line l.column with
    | .ok tok => .ok { l with tokens := l.tokens ++ [tok], buffer_st := l.buffer_ed }
    | .error _ => classifyRest source { l with state := State.DefaultState } c p

/-- Lines 98-133 of `Lexer::run`: the fresh-buffer block — double-symbol
lookahead first (a comment opener switches to `Comment`, any other match is
emitted and enters `DoubleState`), then the single-character tables. -/
def freshPhase (source : List Char) (l : LexerSt) (c p : Char) :
    Except (LexcialError × LexerSt) LexerSt :=
  if p ≠ '\x00' then
    match double_symbol_to_token
        (sliceBytes source l.buffer_st (l.buffer_ed + p.utf8Size)) l.line l.column with
    | .ok tok =>
      if tok = Token.Symbol Symbol.Comment then .ok { l with state := State.Comment }
      else .ok { l with tokens := l.tokens ++ [tok], state := State.DoubleState }
    | .error _ => singlePhase source l c p
  else singlePhase source l c p

/-- One iteration of the `while let Some(c)` loop body of `Lexer::run`
(lines 63-204), invoked on the state already updated by `next_char`
(so `l.buffer_ed` includes the current character `c`); `p` is the peeked
character, `'\x00'` at end of input.  Errors carry the scanner state at the
`report_error` call site. -/
def runBody (source : List Char) (l : LexerSt) (c p : Char) :
    Except (LexcialError × LexerSt) LexerSt :=
  if l.state = State.DoubleState then
    -- lines 75-79: swallow the second character of an emitted double symbol
    .ok { l with buffer_st := l.buffer_ed, state := State.EmptyState }
  else if l.state = State.Comment then
    -- lines 82-88: discard everything up to and including the newline
    if c = '\n' then .ok { l with state := State.EmptyState, buffer_st := l.buffer_ed }
    else .ok l
  else if rust_is_whitespace c ∧ l.state ≠ State.QuotedString then
    -- lines 91-95: whitespace outside strings resets the pending buffer
    .ok { l with buffer_st := l.buffer_ed, state := State.EmptyState }
  else if l.buffer_ed = l.buffer_st + c.utf8Size then
    freshPhase source l c p
  else
    classifyRest source l c p

/-- The `while let Some(c) = self.next_char()` loop of `Lexer::run`: the
remaining characters are consumed one at a time, peeking at the next one
(`'\x00'` when none, mirroring the `Err(_) => '\x00'` default). -/
def runLoop (source : List Char) : List Char → LexerSt →
    Except (LexcialError × LexerSt) LexerSt
  | [], l => .ok l
  | c :: rest, l =>
    match runBody source (nextCharUpd l c) c (rest.headD '\x00') with
    | .ok l' => runLoop source rest l'
    | .error e => .error e

/-- The diagnostic assembled by `Lexer::report_error` (lines 239-295):
context snippet, caret-marker indentation, locator and error cause. -/
structure Diag where
  snippet : List Char
  markerSpaces : Nat
  line : Nat
  column : Nat
  message : LexError
deriving DecidableEq, Repr

/-- Observable outcome of a scan: a returned token sequence, process exit
with status 1 after writing a diagnostic to standard error, or an
arithmetic-underflow crash inside `report_error` before anything is
printed. -/
inductive LexOutcome where
  | ok (tokens : List Token)
  | exit1 (d : Diag)
  | crash
deriving DecidableEq, Repr

/-- The `Lexer::report_error` path (lines 239-295): build the context window and the
caret marker, then exit with status 1.  The marker is
`" ".repeat(column.saturating_sub(start) - 1)`: when
`column.saturating_sub(start)` is `0` the unsigned `- 1` underflows and the
process crashes before any diagnostic is printed. -/
def report_error (source : List Char) (l : LexerSt) (e : LexcialError) : LexOutcome :=
  -- context_window = 10; start = buffer_st.saturating_sub(10);
  -- end = min(buffer_ed + 10, source.len()); snippet = &source[start..end]
  if l.column - (l.buffer_st - 10) = 0 then .crash
  else
    .exit1 ⟨sliceBytes source (l.buffer_st - 10) (min (l.buffer_ed + 10) (utf8Len source)),
            l.column - (l.buffer_st - 10) - 1, l.line, l.column, e.message⟩

/-- Lines 206-213 of `Lexer::run` together with the error propagation of
the loop: after the loop, a scanner still in `QuotedString` reports an
expected-closing-quote error; a loop-internal error reports at its call
site. -/
def runFrom (source rest : List Char) (l : LexerSt) : LexOutcome :=
  match runLoop source rest l with
  | .ok l' =>
    if l'.state = State.QuotedString then
      report_error source l' ⟨l'.line, l'.column, LexError.ExpectedQuote⟩
    else .ok l'.tokens
  | .error (e, le) => report_error source le e

/-- Running `Lexer::new` followed by `Lexer::run` and `get_tokens`: the observable
behaviour of a whole scan. -/
def runLex (source : List Char) : LexOutcome := runFrom source source initLexer

/-! ### Cursor advancement over a span of characters -/

/-- Iterated `next_char` cursor updates for a span of consumed
characters. -/
def advanceChars (l : LexerSt) (cs : List Char) : LexerSt :=
  cs.foldl nextCharUpd l

/-- A token is harmless for the no-negative-numbers property: if it is a
numeric literal, its payload is all decimal digits. -/
def numOk (t : Token) : Prop :=
  ∀ s, t = Token.TypeValue (TypeValue.Number s) → s.data.all Char.isDigit = true

/-- Invariant tying the scanner state to the pending buffer content `m`:
in `DefaultState` the first buffered character is never `'-'` (a lone `'-'`
always matches the operator table first), and in `Number` state it is a
digit. -/
def BufInv (m : List Char) (l : LexerSt) : Prop :=
  (l.state = State.DefaultState → m.headD '\x00' ≠ '-') ∧
  (l.state = State.Number → (m.headD '\x00').isDigit)

/-- Reachability invariant for the scan loop: the source decomposes into
consumed-and-reset text, the pending buffer and the remaining characters,
the byte offsets delimit the pending buffer, and `BufInv` holds for it. -/
def Reach (source rest : List Char) (l : LexerSt) : Prop :=
  ∃ preS mid, source = preS ++ mid ++ rest ∧ utf8Len preS = l.buffer_st ∧
    l.buffer_st + utf8Len mid = l.buffer_ed ∧ BufInv mid l

/-! ### Byte-offset arithmetic -/

@[simp] theorem utf8Len_nil : utf8Len [] = 0 := rfl

@[simp] theorem utf8Len_cons (c : Char) (cs : List Char) :
    utf8Len (c :: cs) = c.utf8Size + utf8Len cs := rfl

@[simp] theorem utf8Len_append (s t : List Char) :
    utf8Len (s ++ t) = utf8Len s + utf8Len t := by
  induction s with
  | nil => simp
  | cons a s ih => simp [ih]; omega

theorem utf8Len_eq_zero {s : List Char} (h : utf8Len s = 0) : s = [] := by
  cases s with
  | nil => rfl
  | cons a s => have := a.utf8Size_pos; simp at h; omega

theorem dropBytes_cons_pos (c : Char) (cs : List Char) (n : Nat) (h : 0 < n) :
    dropBytes (c :: cs) n = dropBytes cs (n - c.utf8Size) := by
  cases n with
  | zero => omega
  | succ m => rfl

theorem takeBytes_cons_le (c : Char) (cs : List Char) (n : Nat)
    (h : c.utf8Size ≤ n) : takeBytes (c :: cs) n = c :: takeBytes cs (n - c.utf8Size) := by
  have := c.utf8Size_pos
  cases n with
  | zero => omega
  | succ m => simp only [takeBytes, if_pos h]

theorem dropBytes_utf8Len_append (pre t : List Char) :
    dropBytes (pre ++ t) (utf8Len pre) = t := by
  induction pre with
  | nil => simp [dropBytes]
  | cons a pre ih =>
    have ha := a.utf8Size_pos
    rw [List.cons_append, utf8Len_cons,
      dropBytes_cons_pos _ _ _ (by omega)]
    have : a.utf8Size + utf8Len pre - a.utf8Size = utf8Len pre := by omega
    rw [this, ih]

theorem takeBytes_utf8Len_append (s t : List Char) :
    takeBytes (s ++ t) (utf8Len s) = s := by
  induction s with
  | nil => cases t <;> rfl
  | cons a s ih =>
    rw [List.cons_append, utf8Len_cons, takeBytes_cons_le _ _ _ (by omega)]
    have : a.utf8Size + utf8Len s - a.utf8Size = utf8Len s := by omega
    rw [this, ih]

/-- The buffer slice `&source[buffer_st..buffer_ed]` recovers exactly the
pending characters when the offsets come from a decomposition of the
source. -/
theorem sliceBytes_decomp (preS mid rest : List Char) :
    sliceBytes (preS ++ mid ++ rest) (utf8Len preS) (utf8Len preS + utf8Len mid) = mid := by
  unfold sliceBytes
  rw [List.append_assoc, dropBytes_utf8Len_append]
  have : utf8Len preS + utf8Len mid - utf8Len preS = utf8Len mid := by omega
  rw [this, takeBytes_utf8Len_append]

/-! ### Step-branch characterisations of the loop body -/

theorem runBody_doubleState (source : List Char) (l : LexerSt) (c p : Char)
    (h : l.state = State.DoubleState) :
    runBody source l c p =
      .ok { l with buffer_st := l.buffer_ed, state := State.EmptyState } := by
  unfold runBody; rw [if_pos h]

theorem runBody_comment_newline (source : List Char) (l : LexerSt) (p : Char)
    (h : l.state = State.Comment) :
    runBody source l '\n' p =
      .ok { l with state := State.EmptyState, buffer_st := l.buffer_ed } := by
  unfold runBody; rw [h]; simp

theorem runBody_comment_skip (source : List Char) (l : LexerSt) (c p : Char)
    (h : l.state = State.Comment) (hc : c ≠ '\n') :
    runBody source l c p = .ok l := by
  unfold runBody; rw [h]; simp [hc]

theorem runBody_whitespace (source : List Char) (l : LexerSt) (c p : Char)
    (h1 : l.state ≠ State.DoubleState) (h2 : l.state ≠ State.Comment)
    (hw : rust_is_whitespace c) (hq : l.state ≠ State.QuotedString) :
    runBody source l c p =
      .ok { l with buffer_st := l.buffer_ed, state := State.EmptyState } := by
  unfold runBody
  rw [if_neg h1, if_neg h2, if_pos ⟨hw, hq⟩]

theorem runBody_fresh_double (source : List Char) (l : LexerSt) (c p : Char)
    (tok : Token)
    (h1 : l.state ≠ State.DoubleState) (h2 : l.state ≠ State.Comment)
    (hw : rust_is_whitespace c = false)
    (hfresh : l.buffer_ed = l.buffer_st + c.utf8Size)
    (hp : p ≠ '\x00')
    (hdbl : double_symbol_to_token
      (sliceBytes source l.buffer_st (l.buffer_ed + p.utf8Size)) l.line l.column = .ok tok)
    (hnc : tok ≠ Token.Symbol Symbol.Comment) :
    runBody source l c p =
      .ok { l with tokens := l.tokens ++ [tok], state := State.DoubleState } := by
  unfold runBody freshPhase
  rw [if_neg h1, if_neg h2, if_neg (by simp [hw]), if_pos hfresh, if_pos hp, hdbl]
  simp [hnc]

theorem runBody_fresh_comment_open (source : List Char) (l : LexerSt) (c p : Char)
    (h1 : l.state ≠ State.DoubleState) (h2 : l.state ≠ State.Comment)
    (hw : rust_is_whitespace c = false)
    (hfresh : l.buffer_ed = l.buffer_st + c.utf8Size)
    (hp : p ≠ '\x00')
    (hdbl : double_symbol_to_token
      (sliceBytes source l.buffer_st (l.buffer_ed + p.utf8Size)) l.line l.column =
      .ok (Token.Symbol Symbol.Comment)) :
    runBody source l c p = .ok { l with state := State.Comment } := by
  unfold runBody freshPhase
  rw [if_neg h1, if_neg h2, if_neg (by simp [hw]), if_pos hfresh, if_pos hp, hdbl]
  simp

theorem toNumberState_of_ne (source : List Char) (l : LexerSt)
    (h : l.state ≠ State.DefaultState) : toNumberState source l = l := by
  unfold toNumberState; rw [if_neg]; exact fun hc => h hc.1

theorem toIdentifierState_of_ne (source : List Char) (l : LexerSt)
    (h : l.state ≠ State.DefaultState) : toIdentifierState source l = l := by
  unfold toIdentifierState; rw [if_neg]; exact fun hc => h hc.1

theorem runBody_quoted_inner (source : List Char) (l : LexerSt) (c p : Char)
    (h : l.state = State.QuotedString) (hq : is_quote c = false)
    (hfresh : l.buffer_ed ≠ l.buffer_st + c.utf8Size) :
    runBody source l c p = .ok l := by
  have hn : toNumberState source l = l := toNumberState_of_ne _ _ (by rw [h]; decide)
  have hi : toIdentifierState source l = l := toIdentifierState_of_ne _ _ (by rw [h]; decide)
  unfold runBody classifyRest
  rw [if_neg (by rw [h]; decide), if_neg (by rw [h]; decide),
    if_neg (by simp [h]), if_neg hfresh, hn, hi]
  simp [h, hq]

theorem runBody_quoted_close (source : List Char) (l : LexerSt) (c p : Char)
    (h : l.state = State.QuotedString) (hq : is_quote c)
    (hfresh : l.buffer_ed ≠ l.buffer_st + c.utf8Size) :
    runBody source l c p =
      .ok { l with
        tokens := l.tokens ++ [Token.TypeValue (TypeValue.QuotedString
          (String.mk (trimMatchesChar '"' (sliceBytes source l.buffer_st l.buffer_ed))))],
        buffer_st := l.buffer_ed, state := State.EmptyState } := by
  have hc : c = '"' := by simpa [is_quote] using hq
  have hn : toNumberState source l = l := toNumberState_of_ne _ _ (by rw [h]; decide)
  have hi : toIdentifierState source l = l := toIdentifierState_of_ne _ _ (by rw [h]; decide)
  unfold runBody classifyRest
  rw [if_neg (by rw [h]; decide), if_neg (by rw [h]; decide),
    if_neg (by rw [h, hc]; decide), if_neg hfresh, hn, hi]
  simp [h, hq]

theorem runBody_identifier_statement (source : List Char) (l : LexerSt) (c p : Char)
    (s : List Char) (tok : Token)
    (h : l.state = State.Identifier)
    (hw : rust_is_whitespace c = false)
    (hfresh : l.buffer_ed ≠ l.buffer_st + c.utf8Size)
    (hp : is_identifierable p = false)
    (hs : sliceBytes source l.buffer_st l.buffer_ed = s)
    (hstmt : statement_to_token s l.line l.column = .ok tok) :
    runBody source l c p =
      .ok { l with tokens := l.tokens ++ [tok],
                   buffer_st := l.buffer_ed, state := State.EmptyState } := by
  have hn : toNumberState source l = l := toNumberState_of_ne _ _ (by rw [h]; decide)
  have hi : toIdentifierState source l = l := toIdentifierState_of_ne _ _ (by rw [h]; decide)
  unfold runBody classifyRest
  rw [if_neg (by rw [h]; decide), if_neg (by rw [h]; decide),
    if_neg (by simp [hw]), if_neg hfresh, hn, hi]
  simp [h, hp, hs, hstmt]

theorem LexerSt.extEq {a b : LexerSt} (ht : a.tokens = b.tokens)
    (hs : a.state = b.state) (h1 : a.buffer_st = b.buffer_st)
    (h2 : a.buffer_ed = b.buffer_ed) (h3 : a.line = b.line)
    (h4 : a.column = b.column) : a = b := by
  cases a; cases b; simp_all

@[simp] theorem utf8Size_newline : '\n'.utf8Size = 1 := rfl

@[simp] theorem utf8Size_quote : ('"').utf8Size = 1 := rfl

@[simp] theorem nextCharUpd_state (l : LexerSt) (c : Char) :
    (nextCharUpd l c).state = l.state := by
  unfold nextCharUpd; split <;> rfl

@[simp] theorem nextCharUpd_tokens (l : LexerSt) (c : Char) :
    (nextCharUpd l c).tokens = l.tokens := by
  unfold nextCharUpd; split <;> rfl

@[simp] theorem nextCharUpd_buffer_st (l : LexerSt) (c : Char) :
    (nextCharUpd l c).buffer_st = l.buffer_st := by
  unfold nextCharUpd; split <;> rfl

@[simp] theorem nextCharUpd_buffer_ed (l : LexerSt) (c : Char) :
    (nextCharUpd l c).buffer_ed = l.buffer_ed + c.utf8Size := by
  unfold nextCharUpd; split
  · next h => rw [h]
  · rfl

theorem nextCharUpd_line_of_ne (l : LexerSt) (c : Char) (h : c ≠ '\n') :
    (nextCharUpd l c).line = l.line := by
  unfold nextCharUpd; rw [if_neg h]

theorem nextCharUpd_column_of_ne (l : LexerSt) (c : Char) (h : c ≠ '\n') :
    (nextCharUpd l c).column = l.column + c.utf8Size := by
  unfold nextCharUpd; rw [if_neg h]

@[simp] theorem toNumberState_tokens (source : List Char) (l : LexerSt) :
    (toNumberState source l).tokens = l.tokens := by
  unfold toNumberState; split <;> rfl

@[simp] theorem toNumberState_buffer_st (source : List Char) (l : LexerSt) :
    (toNumberState source l).buffer_st = l.buffer_st := by
  unfold toNumberState; split <;> rfl

@[simp] theorem toNumberState_buffer_ed (source : List Char) (l : LexerSt) :
    (toNumberState source l).buffer_ed = l.buffer_ed := by
  unfold toNumberState; split <;> rfl

@[simp] theorem toNumberState_line (source : List Char) (l : LexerSt) :
    (toNumberState source l).line = l.line := by
  unfold toNumberState; split <;> rfl

@[simp] theorem toNumberState_column (source : List Char) (l : LexerSt) :
    (toNumberState source l).column = l.column := by
  unfold toNumberState; split <;> rfl

@[simp] theorem toIdentifierState_tokens (source : List Char) (l : LexerSt) :
    (toIdentifierState source l).tokens = l.tokens := by
  unfold toIdentifierState; split <;> rfl

@[simp] theorem toIdentifierState_buffer_st (source : List Char) (l : LexerSt) :
    (toIdentifierState source l).buffer_st = l.buffer_st := by
  unfold toIdentifierState; split <;> rfl

@[simp] theorem toIdentifierState_buffer_ed (source : List Char) (l : LexerSt) :
    (toIdentifierState source l).buffer_ed = l.buffer_ed := by
  unfold toIdentifierState; split <;> rfl

@[simp] theorem toIdentifierState_line (source : List Char) (l : LexerSt) :
    (toIdentifierState source l).line = l.line := by
  unfold toIdentifierState; split <;> rfl

@[simp] theorem toIdentifierState_column (source : List Char) (l : LexerSt) :
    (toIdentifierState source l).column = l.column := by
  unfold toIdentifierState; split <;> rfl

theorem classifyRest_ok_pos (source : List Char) (l : LexerSt) (c p : Char)
    (l' : LexerSt) (h : classifyRest source l c p = .ok l') :
    l'.line = l.line ∧ l'.column = l.column := by
  unfold classifyRest at h
  repeat' split at h
  all_goals first
    | exact Except.noConfusion h
    | (obtain rfl := (Except.ok.inj h).symm; constructor <;> simp)

theorem singlePhase_ok_pos (source : List Char) (l : LexerSt) (c p : Char)
    (l' : LexerSt) (h : singlePhase source l c p = .ok l') :
    l'.line = l.line ∧ l'.column = l.column := by
  unfold singlePhase at h
  repeat' split at h
  all_goals first
    | exact Except.noConfusion h
    | (obtain rfl := (Except.ok.inj h).symm; constructor <;> simp)
    | (have hh := classifyRest_ok_pos _ _ _ _ _ h; exact ⟨hh.1, hh.2⟩)

theorem freshPhase_ok_pos (source : List Char) (l : LexerSt) (c p : Char)
    (l' : LexerSt) (h : freshPhase source l c p = .ok l') :
    l'.line = l.line ∧ l'.column = l.column := by
  unfold freshPhase at h
  repeat' split at h
  all_goals first
    | exact Except.noConfusion h
    | (obtain rfl := (Except.ok.inj h).symm; constructor <;> simp)
    | (have hh := singlePhase_ok_pos _ _ _ _ _ h; exact ⟨hh.1, hh.2⟩)

/-- The loop body never touches the line/column counters: they change only
in `next_char`. -/
theorem runBody_ok_pos (source : List Char) (l : LexerSt) (c p : Char)
    (l' : LexerSt) (h : runBody source l c p = .ok l') :
    l'.line = l.line ∧ l'.column = l.column := by
  unfold runBody at h
  repeat' split at h
  all_goals first
    | exact Except.noConfusion h
    | (obtain rfl := (Except.ok.inj h).symm; constructor <;> simp)
    | (have hh := freshPhase_ok_pos _ _ _ _ _ h; exact ⟨hh.1, hh.2⟩)
    | (have hh := classifyRest_ok_pos _ _ _ _ _ h; exact ⟨hh.1, hh.2⟩)

/-! ### Quote trimming -/

theorem dropWhile_quote_eq_self (t : List Char) (ht : ∀ x ∈ t, x ≠ '"') :
    t.dropWhile (· = '"') = t := by
  cases t with
  | nil => rfl
  | cons a t => simp [List.dropWhile_cons, ht a (by simp)]

/-- Applying `trim_matches('"')` on a buffer consisting of an opening quote, a
quote-free body and a closing quote returns exactly the body. -/
theorem trimMatchesChar_sandwich (m : List Char) (hm : ∀ x ∈ m, x ≠ '"') :
    trimMatchesChar '"' ('"' :: m ++ ['"']) = m := by
  cases m with
  | nil => rfl
  | cons a m =>
    have ha : a ≠ '"' := hm a (by simp)
    unfold trimMatchesChar
    simp only [List.cons_append]
    rw [List.dropWhile_cons, if_pos (by simp),
      List.dropWhile_cons, if_neg (by simp [ha])]
    have h2 : (a :: (m ++ ['"'])).reverse = '"' :: (m.reverse ++ [a]) := by simp
    rw [h2, List.dropWhile_cons, if_pos (by simp),
      dropWhile_quote_eq_self _ (by
        intro x hx
        rcases List.mem_append.mp hx with hx | hx
        · exact hm x (by simp [List.mem_reverse.mp hx])
        · simp at hx; simpa [hx] using ha)]
    simp

@[simp] theorem advanceChars_nil (l : LexerSt) : advanceChars l [] = l := rfl

@[simp] theorem advanceChars_cons (l : LexerSt) (c : Char) (cs : List Char) :
    advanceChars l (c :: cs) = advanceChars (nextCharUpd l c) cs := rfl

@[simp] theorem advanceChars_state (cs : List Char) : ∀ (l : LexerSt),
    (advanceChars l cs).state = l.state := by
  induction cs with
  | nil => simp
  | cons c cs ih => intro l; simp [ih]

@[simp] theorem advanceChars_tokens (cs : List Char) : ∀ (l : LexerSt),
    (advanceChars l cs).tokens = l.tokens := by
  induction cs with
  | nil => simp
  | cons c cs ih => intro l; simp [ih]

@[simp] theorem advanceChars_buffer_st (cs : List Char) : ∀ (l : LexerSt),
    (advanceChars l cs).buffer_st = l.buffer_st := by
  induction cs with
  | nil => simp
  | cons c cs ih => intro l; simp [ih]

@[simp] theorem advanceChars_buffer_ed (cs : List Char) : ∀ (l : LexerSt),
    (advanceChars l cs).buffer_ed = l.buffer_ed + utf8Len cs := by
  induction cs with
  | nil => simp
  | cons c cs ih => intro l; simp [ih]; omega

/-! ### Run-level lemmas -/

/-- From `EmptyState`, whitespace characters are skipped without emitting
tokens: the loop ends back in `EmptyState` with the token list unchanged. -/
theorem runLoop_ws (source : List Char) : ∀ (rest : List Char) (l : LexerSt),
    l.state = State.EmptyState → (∀ c ∈ rest, rust_is_whitespace c) →
    ∃ l', runLoop source rest l = .ok l' ∧
      l'.state = State.EmptyState ∧ l'.tokens = l.tokens := by
  intro rest
  induction rest with
  | nil => exact fun l h _ => ⟨l, rfl, h, rfl⟩
  | cons c rest ih =>
    intro l h hw
    have hb := runBody_whitespace source (nextCharUpd l c) c (rest.headD '\x00')
      (by simp [h]) (by simp [h]) (hw c (by simp)) (by simp [h])
    obtain ⟨l', hl', hst, htok⟩ := ih
      { nextCharUpd l c with buffer_st := (nextCharUpd l c).buffer_ed,
                             state := State.EmptyState }
      rfl (fun d hd => hw d (by simp [hd]))
    exact ⟨l', by simp only [runLoop]; rw [hb]; exact hl', hst, by simpa using htok⟩

/-- In `Comment` state, characters other than a newline are consumed
without emitting tokens and without leaving `Comment` state. -/
theorem runLoop_comment_no_newline (source : List Char) : ∀ (rest : List Char) (l : LexerSt),
    l.state = State.Comment → (∀ d ∈ rest, d ≠ '\n') →
    ∃ l', runLoop source rest l = .ok l' ∧
      l'.state = State.Comment ∧ l'.tokens = l.tokens := by
  intro rest
  induction rest with
  | nil => exact fun l h _ => ⟨l, rfl, h, rfl⟩
  | cons c rest ih =>
    intro l h hn
    have hb := runBody_comment_skip source (nextCharUpd l c) c (rest.headD '\x00')
      (by simp [h]) (hn c (by simp))
    obtain ⟨l', hl', hst, htok⟩ := ih (nextCharUpd l c) (by simp [h])
      (fun d hd => hn d (by simp [hd]))
    exact ⟨l', by simp only [runLoop]; rw [hb]; exact hl', hst, by simpa using htok⟩

/-- Unfolding one successful step of the scan loop. -/
theorem runLoop_cons_ok {source : List Char} {c : Char} {rest : List Char}
    {l l1 : LexerSt}
    (hb : runBody source (nextCharUpd l c) c (rest.headD '\x00') = .ok l1) :
    runLoop source (c :: rest) l = runLoop source rest l1 := by
  simp only [runLoop]
  rw [hb]

/-- A comment swallows every character up to and including the next
newline: the loop state after the newline has the same tokens, is back in
`EmptyState`, and the buffer is re-anchored past the newline. -/
theorem runLoop_comment_through_newline (source post : List Char) :
    ∀ (pre : List Char) (l : LexerSt),
    l.state = State.Comment → (∀ d ∈ pre, d ≠ '\n') →
    runLoop source (pre ++ '\n' :: post) l =
      runLoop source post
        { l with line := l.line + 1, column := 1,
                 buffer_st := l.buffer_ed + utf8Len pre + 1,
                 buffer_ed := l.buffer_ed + utf8Len pre + 1,
                 state := State.EmptyState } := by
  intro pre
  induction pre with
  | nil =>
    intro l h _
    rw [List.nil_append,
      runLoop_cons_ok (runBody_comment_newline source (nextCharUpd l '\n')
        (post.headD '\x00') (by simp [h]))]
    exact congrArg _ (LexerSt.extEq (by simp) (by simp) (by simp [nextCharUpd])
      (by simp [nextCharUpd]) (by simp [nextCharUpd]) (by simp [nextCharUpd]))
  | cons d pre ih =>
    intro l h hn
    have hd : d ≠ '\n' := hn d (by simp)
    rw [List.cons_append,
      runLoop_cons_ok (runBody_comment_skip source (nextCharUpd l d) d _
        (by simp [h]) hd),
      ih (nextCharUpd l d) (by simp [h]) (fun x hx => hn x (by simp [hx]))]
    exact congrArg _ (LexerSt.extEq (by simp) (by simp) (by simp; omega)
      (by simp; omega) (by simp [nextCharUpd_line_of_ne _ _ hd])
      (by simp))

/-- Line and column tracking over a newline-free span: every consumed
character advances the column by its UTF-8 byte length and leaves the line
unchanged. -/
theorem runLoop_pos (source : List Char) : ∀ (rest : List Char) (l l' : LexerSt),
    runLoop source rest l = .ok l' → (∀ c ∈ rest, c ≠ '\n') →
    l'.line = l.line ∧ l'.column = l.column + utf8Len rest := by
  intro rest
  induction rest with
  | nil =>
    intro l l' h _
    obtain rfl := (Except.ok.inj h).symm
    simp
  | cons c rest ih =>
    intro l l' h hn
    simp only [runLoop] at h
    cases hrb : runBody source (nextCharUpd l c) c (rest.headD '\x00') with
    | error e => rw [hrb] at h; exact Except.noConfusion h
    | ok l1 =>
      rw [hrb] at h
      obtain ⟨h1, h2⟩ := ih l1 l' h (fun d hd => hn d (by simp [hd]))
      obtain ⟨h3, h4⟩ := runBody_ok_pos source (nextCharUpd l c) c _ l1 hrb
      have hc : c ≠ '\n' := hn c (by simp)
      refine ⟨?_, ?_⟩
      · rw [h1, h3, nextCharUpd_line_of_ne _ _ hc]
      · rw [h2, h4, nextCharUpd_column_of_ne _ _ hc]
        simp; omega

/-- Scanning the interior of a quoted string: from `QuotedString` state
with the opening quote and a quote-free prefix `acc` buffered, a quote-free
`interior` followed by a closing quote emits exactly one string-literal
token whose payload is `acc ++ interior` — the delimiting quotes are
stripped and every interior character (whitespace included) is preserved
verbatim. -/
theorem runLoop_quoted_string (source preS rest : List Char) :
    ∀ (interior acc : List Char) (l : LexerSt),
    l.state = State.QuotedString →
    source = preS ++ ('"' :: acc) ++ interior ++ '"' :: rest →
    utf8Len preS = l.buffer_st →
    l.buffer_ed = l.buffer_st + utf8Len ('"' :: acc) →
    (∀ x ∈ acc, x ≠ '"') → (∀ x ∈ interior, x ≠ '"') →
    runLoop source (interior ++ '"' :: rest) l =
      runLoop source rest
        { advanceChars l (interior ++ ['"']) with
          tokens := l.tokens ++ [Token.TypeValue (TypeValue.QuotedString
            (String.mk (acc ++ interior)))],
          buffer_st := l.buffer_ed + utf8Len interior + 1,
          state := State.EmptyState } := by
  intro interior
  induction interior with
  | nil =>
    intro acc l h hsrc hst hed hacc _
    have hfresh : (nextCharUpd l '"').buffer_ed ≠
        (nextCharUpd l '"').buffer_st + '"'.utf8Size := by
      simp [hed]; try omega
    rw [List.nil_append,
      runLoop_cons_ok (runBody_quoted_close source (nextCharUpd l '"') '"'
        (rest.headD '\x00') (by simp [h]) (by decide) hfresh)]
    have hsrc2 : source = preS ++ ('"' :: acc ++ ['"']) ++ rest := by
      rw [hsrc]; simp
    have hslice : sliceBytes source (nextCharUpd l '"').buffer_st
        (nextCharUpd l '"').buffer_ed = '"' :: acc ++ ['"'] := by
      have : (nextCharUpd l '"').buffer_ed =
          utf8Len preS + utf8Len ('"' :: acc ++ ['"']) := by
        simp [hed, ← hst]; try omega
      rw [this]
      have hst2 : (nextCharUpd l '"').buffer_st = utf8Len preS := by simp [hst]
      rw [hst2, hsrc2, sliceBytes_decomp]
    rw [hslice]
    have htrim : trimMatchesChar '"' ('"' :: acc ++ ['"']) = acc :=
      trimMatchesChar_sandwich acc hacc
    rw [htrim]
    exact congrArg _ (LexerSt.extEq (by simp) (by simp) (by simp; try omega)
      (by simp; try omega) (by simp [advanceChars]) (by simp [advanceChars]))
  | cons d interior ih =>
    intro acc l h hsrc hst hed hacc hint
    have hd : d ≠ '"' := hint d (by simp)
    have hfresh : (nextCharUpd l d).buffer_ed ≠
        (nextCharUpd l d).buffer_st + d.utf8Size := by
      simp [hed]; try omega
    rw [List.cons_append,
      runLoop_cons_ok (runBody_quoted_inner source (nextCharUpd l d) d _
        (by simp [h]) (by simp [is_quote, hd]) hfresh),
      ih (acc ++ [d]) (nextCharUpd l d) (by simp [h])
        (by rw [hsrc]; simp) (by simp [hst])
        (by simp [hed]; try omega)
        (by intro x hx
            rcases List.mem_append.mp hx with hx | hx
            · exact hacc x hx
            · simp at hx; simpa [hx] using hd)
        (fun x hx => hint x (by simp [hx]))]
    have hadv : advanceChars (nextCharUpd l d) (interior ++ ['"']) =
        advanceChars l (d :: interior ++ ['"']) := by simp
    exact congrArg _ (LexerSt.extEq (by simp) (by simp) (by simp; omega)
      (by rw [hadv]) (by rw [hadv]) (by rw [hadv]))

/-! ### Claims -/

/-- C1: whenever the scanner tests a fresh one-character buffer together
with the lookahead character against the double-symbol table and the pair
matches (with a non-comment token), it emits that double-character token
and enters `DoubleState` — the single-character tables are never consulted,
so the pair is not split; the following step consumes the second character
of the pair without emitting any token; concretely, `"a->b"` scans to
identifier, arrow, identifier rather than splitting `->` into a minus and a
greater-than. -/
theorem claim1_double_symbol_preference :
    (∀ (source : List Char) (l : LexerSt) (c p : Char) (tok : Token),
      l.state ≠ State.DoubleState → l.state ≠ State.Comment →
      rust_is_whitespace c = false →
      l.buffer_ed = l.buffer_st + c.utf8Size → p ≠ '\x00' →
      double_symbol_to_token
        (sliceBytes source l.buffer_st (l.buffer_ed + p.utf8Size)) l.line l.column = .ok tok →
      tok ≠ Token.Symbol Symbol.Comment →
      runBody source l c p =
        .ok { l with tokens := l.tokens ++ [tok], state := State.DoubleState }) ∧
    (∀ (source : List Char) (l : LexerSt) (c p : Char),
      l.state = State.DoubleState →
      runBody source l c p =
        .ok { l with buffer_st := l.buffer_ed, state := State.EmptyState }) ∧
    runLex "a->b".data = LexOutcome.ok
      [Token.TypeValue (TypeValue.Identifier "a"), Token.Symbol Symbol.Arrow,
       Token.TypeValue (TypeValue.Identifier "b")] :=
  ⟨runBody_fresh_double, runBody_doubleState, by decide⟩

/-- Witness for C1: the arrow of `"->"` is emitted as one double-character
token and the scanner enters `DoubleState`. -/
theorem claim1_witness :
    runBody ['-', '>'] ⟨[], State.EmptyState, 0, 1, 1, 2⟩ '-' '>' =
      .ok ⟨[Token.Symbol Symbol.Arrow], State.DoubleState, 0, 1, 1, 2⟩ :=
  claim1_double_symbol_preference.1 ['-', '>'] ⟨[], State.EmptyState, 0, 1, 1, 2⟩
    '-' '>' (Token.Symbol Symbol.Arrow) (by decide) (by decide) (by decide)
    (by decide) (by decide) (by rfl) (by decide)

/-- C2: when an identifier lexeme is complete (`Identifier` state, next
character not identifier-continuing), a buffer matching the statement
keyword table is always emitted as that `Statement` token — the keyword
tier is consulted before type names and before the generic-identifier
fallback; concretely `"return"` scans to the `Return` statement token while
`"returning"` scans to a generic identifier. -/
theorem claim2_keyword_precedence :
    (∀ (source : List Char) (l : LexerSt) (c p : Char) (s : List Char) (tok : Token),
      l.state = State.Identifier → rust_is_whitespace c = false →
      l.buffer_ed ≠ l.buffer_st + c.utf8Size → is_identifierable p = false →
      sliceBytes source l.buffer_st l.buffer_ed = s →
      statement_to_token s l.line l.column = .ok tok →
      runBody source l c p =
        .ok { l with tokens := l.tokens ++ [tok], buffer_st := l.buffer_ed,
                     state := State.EmptyState }) ∧
    runLex "return".data = LexOutcome.ok [Token.Statement Statement.Return] ∧
    runLex "returning".data =
      LexOutcome.ok [Token.TypeValue (TypeValue.Identifier "returning")] :=
  ⟨runBody_identifier_statement, by decide, by decide⟩

/-- Witness for C2: completing the buffer `"return"` emits the `Return`
statement token. -/
theorem claim2_witness :
    runBody "return".data ⟨[], State.Identifier, 0, 6, 1, 7⟩ 'n' '\x00' =
      .ok ⟨[Token.Statement Statement.Return], State.EmptyState, 6, 6, 1, 7⟩ :=
  claim2_keyword_precedence.1 "return".data ⟨[], State.Identifier, 0, 6, 1, 7⟩
    'n' '\x00' "return".data (Token.Statement Statement.Return) (by decide)
    (by decide) (by decide) (by decide) (by rfl) (by rfl)

/-- C3: a quoted string closed before end of input emits a string-literal
token whose payload is exactly the interior characters — the delimiting
quotes are stripped and every interior character, whitespace included, is
preserved verbatim (the whitespace-skipping rule is disabled in
`QuotedString` state); concretely `" "Hello, world!" "` scans to the one
string token `Hello, world!`. -/
theorem claim3_quoted_string_payload :
    (∀ (source preS rest interior acc : List Char) (l : LexerSt),
      l.state = State.QuotedString →
      source = preS ++ ('"' :: acc) ++ interior ++ '"' :: rest →
      utf8Len preS = l.buffer_st →
      l.buffer_ed = l.buffer_st + utf8Len ('"' :: acc) →
      (∀ x ∈ acc, x ≠ '"') → (∀ x ∈ interior, x ≠ '"') →
      runLoop source (interior ++ '"' :: rest) l =
        runLoop source rest
          { advanceChars l (interior ++ ['"']) with
            tokens := l.tokens ++ [Token.TypeValue (TypeValue.QuotedString
              (String.mk (acc ++ interior)))],
            buffer_st := l.buffer_ed + utf8Len interior + 1,
            state := State.EmptyState }) ∧
    runLex " \"Hello, world!\" ".data =
      LexOutcome.ok [Token.TypeValue (TypeValue.QuotedString "Hello, world!")] :=
  ⟨fun source preS rest interior acc l =>
    runLoop_quoted_string source preS rest interior acc l, by decide⟩

/-- Witness for C3: closing `"H i"` emits the payload `H i` with its
interior space preserved and the quotes stripped. -/
theorem claim3_witness :
    runLoop "\"H i\"".data "H i\"".data ⟨[], State.QuotedString, 0, 1, 1, 2⟩ =
      runLoop "\"H i\"".data []
        { advanceChars ⟨[], State.QuotedString, 0, 1, 1, 2⟩ "H i\"".data with
          tokens := [Token.TypeValue (TypeValue.QuotedString "H i")],
          buffer_st := 1 + utf8Len "H i".data + 1,
          state := State.EmptyState } :=
  claim3_quoted_string_payload.1 "\"H i\"".data [] [] "H i".data []
    ⟨[], State.QuotedString, 0, 1, 1, 2⟩ (by decide) (by decide) (by decide)
    (by decide) (by decide) (by decide)

/-- C4 (code bug): end of input in `QuotedString` state always calls
`report_error` with an expected-closing-quote diagnostic and never returns
a token sequence, but the claimed stderr-diagnostic-and-exit-1 behaviour
only happens when the caret computation does not underflow: on
`"aaaaaaaaaaaa\n\""` the marker arithmetic underflows and the process
panics before printing anything, while on `"\"ab"` the diagnostic is
written and the process exits with status 1. -/
theorem claim4_unterminated_string :
    runLex "aaaaaaaaaaaa\n\"".data = LexOutcome.crash ∧
    runLex "\"ab".data = LexOutcome.exit1
      ⟨"\"ab".data, 3, 1, 4, LexError.ExpectedQuote⟩ :=
  ⟨by decide, by decide⟩

/-- C5: a comment-opening double-symbol match switches the scanner to
`Comment` state without emitting the opener; from `Comment` state every
character up to and including the next newline is consumed without
contributing any token, after which the scanner is back in `EmptyState`
with the buffer re-anchored; concretely `"1//z w\n2"` scans to exactly the
two number tokens `1` and `2`. -/
theorem claim5_comment_suppression :
    (∀ (source : List Char) (l : LexerSt) (c p : Char),
      l.state ≠ State.DoubleState → l.state ≠ State.Comment →
      rust_is_whitespace c = false →
      l.buffer_ed = l.buffer_st + c.utf8Size → p ≠ '\x00' →
      double_symbol_to_token
        (sliceBytes source l.buffer_st (l.buffer_ed + p.utf8Size)) l.line l.column =
        .ok (Token.Symbol Symbol.Comment) →
      runBody source l c p = .ok { l with state := State.Comment }) ∧
    (∀ (source post pre : List Char) (l : LexerSt),
      l.state = State.Comment → (∀ d ∈ pre, d ≠ '\n') →
      runLoop source (pre ++ '\n' :: post) l =
        runLoop source post
          { l with line := l.line + 1, column := 1,
                   buffer_st := l.buffer_ed + utf8Len pre + 1,
                   buffer_ed := l.buffer_ed + utf8Len pre + 1,
                   state := State.EmptyState }) ∧
    runLex "1//z w\n2".data = LexOutcome.ok
      [Token.TypeValue (TypeValue.Number "1"), Token.TypeValue (TypeValue.Number "2")] :=
  ⟨runBody_fresh_comment_open,
   fun source post pre l => runLoop_comment_through_newline source post pre l,
   by decide⟩

/-- Witness for C5: recognising `"//"` switches to `Comment` without
emitting a token. -/
theorem claim5_witness :
    runBody ['/', '/'] ⟨[], State.EmptyState, 0, 1, 1, 2⟩ '/' '/' =
      .ok ⟨[], State.Comment, 0, 1, 1, 2⟩ :=
  claim5_comment_suppression.1 ['/', '/'] ⟨[], State.EmptyState, 0, 1, 1, 2⟩
    '/' '/' (by decide) (by decide) (by decide) (by decide) (by decide) (by rfl)

/-- C6: scanning a source text consisting only of whitespace characters
produces the empty token sequence. -/
theorem claim6_whitespace_only :
    ∀ (source : List Char), (∀ c ∈ source, rust_is_whitespace c) →
    runLex source = LexOutcome.ok [] := by
  intro source hw
  obtain ⟨l', h, hst, htok⟩ := runLoop_ws source source initLexer rfl hw
  unfold runLex runFrom
  rw [h]
  simp [hst, htok, initLexer]

/-- Witness for C6: a space, a newline and a tab scan to no tokens. -/
theorem claim6_witness : runLex [' ', '\n', '\t'] = LexOutcome.ok [] :=
  claim6_whitespace_only [' ', '\n', '\t'] (by decide)

/-- C7 counterexample: scanning the single two-byte character `é` (one
UTF-8 code point, no newline) ends with column `3`, not the claimed number
of code points plus one, which would be `2` — the column counter advances
by UTF-8 byte length, not by code points. -/
theorem claim7_counterexample :
    (runLoop ['é'] ['é'] initLexer).map (fun l => (l.line, l.column)) =
      Except.ok (1, 3) ∧ (3 : Nat) ≠ 1 + 1 :=
  ⟨by rfl, by decide⟩

/-- C7 (amended): for newline-free inputs on which the scan loop completes,
the final line counter is `1` and the final column counter is `1` plus the
total UTF-8 *byte* length of the scanned characters (for pure-ASCII input
this coincides with the number of code points plus one). -/
theorem claim7_line_column_bytes :
    ∀ (source : List Char) (l' : LexerSt),
    (∀ c ∈ source, c ≠ '\n') → runLoop source source initLexer = .ok l' →
    l'.line = 1 ∧ l'.column = 1 + utf8Len source := by
  intro source l' hn h
  obtain ⟨h1, h2⟩ := runLoop_pos source source initLexer l' h hn
  refine ⟨by simpa [initLexer] using h1, ?_⟩
  rw [h2]
  simp [initLexer]
  try omega

/-- Witness for C7 (amended): scanning `"ab"` ends at line 1, column 3. -/
theorem claim7_witness :
    (⟨[Token.TypeValue (TypeValue.Identifier "ab")], State.EmptyState, 2, 2, 1, 3⟩ :
      LexerSt).line = 1 ∧
    (⟨[Token.TypeValue (TypeValue.Identifier "ab")], State.EmptyState, 2, 2, 1, 3⟩ :
      LexerSt).column = 1 + utf8Len "ab".data :=
  claim7_line_column_bytes "ab".data
    ⟨[Token.TypeValue (TypeValue.Identifier "ab")], State.EmptyState, 2, 2, 1, 3⟩
    (by decide) (by rfl)

/-- C9: end of input in `Comment` state is not an error: the scan completes
and returns the tokens accumulated before the comment (only `QuotedString`
triggers the end-of-input error); concretely `"5 //end"` scans to the
single number token `5`. -/
theorem claim9_comment_eof_ok :
    (∀ (source rest : List Char) (l : LexerSt),
      l.state = State.Comment → (∀ d ∈ rest, d ≠ '\n') →
      runFrom source rest l = LexOutcome.ok l.tokens) ∧
    runLex "5 //end".data = LexOutcome.ok [Token.TypeValue (TypeValue.Number "5")] := by
  refine ⟨?_, by decide⟩
  intro source rest l h hn
  obtain ⟨l', hl', hst, htok⟩ := runLoop_comment_no_newline source rest l h hn
  unfold runFrom
  rw [hl']
  simp [hst, htok]

/-- Witness for C9: a scanner sitting in a comment at end of input returns
its previously accumulated tokens. -/
theorem claim9_witness :
    runFrom [] ['a'] ⟨[Token.Symbol Symbol.Colon], State.Comment, 0, 0, 1, 1⟩ =
      LexOutcome.ok [Token.Symbol Symbol.Colon] :=
  claim9_comment_eof_ok.1 [] ['a']
    ⟨[Token.Symbol Symbol.Colon], State.Comment, 0, 0, 1, 1⟩ (by decide) (by decide)

/-- C10: whenever `report_error` is reached with the current column at most
the context-window start (`buffer_st.saturating_sub(10)`), the caret-marker
repeat count underflows and the process panics before any diagnostic is
printed; the situation is reachable: scanning `"zzzzzzzzzzzz\n\""` ends in
such a panic. -/
theorem claim10_caret_underflow :
    (∀ (source : List Char) (l : LexerSt) (e : LexcialError),
      l.column ≤ l.buffer_st - 10 →
      report_error source l e = LexOutcome.crash) ∧
    runLex "zzzzzzzzzzzz\n\"".data = LexOutcome.crash := by
  refine ⟨?_, by decide⟩
  intro source l e h
  unfold report_error
  rw [if_pos (by omega)]

/-- Witness for C10: a column of 2 against a buffer start of 30 makes the
marker arithmetic underflow. -/
theorem claim10_witness :
    report_error [] ⟨[], State.EmptyState, 30, 30, 2, 2⟩ ⟨2, 2, LexError.ExpectedQuote⟩ =
      LexOutcome.crash :=
  claim10_caret_underflow.1 [] ⟨[], State.EmptyState, 30, 30, 2, 2⟩
    ⟨2, 2, LexError.ExpectedQuote⟩ (by decide)

/-! ### The scanner never emits a negative numeric literal -/

theorem symbol_to_token_shape (c : Char) (li co : Nat) (tok : Token)
    (h : symbol_to_token c li co = .ok tok) : ∃ s, tok = Token.Symbol s := by
  unfold symbol_to_token at h
  repeat' split at h
  all_goals first
    | exact Except.noConfusion h
    | exact ⟨_, ((Except.ok.inj h).symm)⟩

theorem operator_to_token_shape (c : Char) (li co : Nat) (tok : Token)
    (h : operator_to_token c li co = .ok tok) :
    (∃ o, tok = Token.Operator o) ∨ (∃ a, tok = Token.Assign a) := by
  unfold operator_to_token at h
  repeat' split at h
  all_goals first
    | exact Except.noConfusion h
    | exact Or.inl ⟨_, ((Except.ok.inj h).symm)⟩
    | exact Or.inr ⟨_, ((Except.ok.inj h).symm)⟩

theorem double_symbol_to_token_shape (s : List Char) (li co : Nat) (tok : Token)
    (h : double_symbol_to_token s li co = .ok tok) :
    (∃ sy, tok = Token.Symbol sy) ∨ (∃ o, tok = Token.Operator o) := by
  unfold double_symbol_to_token at h
  repeat' split at h
  all_goals first
    | exact Except.noConfusion h
    | exact Or.inl ⟨_, ((Except.ok.inj h).symm)⟩
    | exact Or.inr ⟨_, ((Except.ok.inj h).symm)⟩

theorem statement_to_token_shape (s : List Char) (li co : Nat) (tok : Token)
    (h : statement_to_token s li co = .ok tok) : ∃ st, tok = Token.Statement st := by
  unfold statement_to_token at h
  repeat' split at h
  all_goals first
    | exact Except.noConfusion h
    | exact ⟨_, ((Except.ok.inj h).symm)⟩

theorem type_name_to_token_shape (s : List Char) (li co : Nat) (tok : Token)
    (h : type_name_to_token s li co = .ok tok) : ∃ tn, tok = Token.TypeName tn := by
  unfold type_name_to_token at h
  repeat' split at h
  all_goals first
    | exact Except.noConfusion h
    | exact ⟨_, ((Except.ok.inj h).symm)⟩

theorem numOk_of_not_number {t : Token} (h : ∀ s, t ≠ Token.TypeValue (TypeValue.Number s)) :
    numOk t := fun s hs => absurd hs (h s)

/-- A valid numeric-literal span whose first character is a digit consists
only of digits. -/
theorem numberValid_all_digits (m : List Char) (hv : numberValid m = true)
    (hd : (m.headD '\x00').isDigit) : m.all Char.isDigit = true := by
  cases m with
  | nil => simp [numberValid] at hv
  | cons a m =>
    rw [List.headD_cons] at hd
    have ha : a ≠ '-' := fun h => by rw [h] at hd; exact absurd hd (by decide)
    simpa [numberValid, ha] using hv

theorem toNumberState_state_number (source : List Char) (l : LexerSt)
    (h : (toNumberState source l).state = State.Number) :
    l.state = State.Number ∨
      (l.state = State.DefaultState ∧
        (firstBufChar source l = '-' ∨ rust_is_numeric (firstBufChar source l))) := by
  unfold toNumberState at h
  split at h
  · next hc => exact Or.inr hc
  · exact Or.inl h

/-- The invariant `BufInv` survives the `DefaultState → Number` upgrade of lines 140-142. -/
theorem toNumberState_bufInv (source : List Char) (lm : LexerSt) (m : List Char)
    (hfc : firstBufChar source lm = m.headD '\x00')
    (hbi : BufInv m lm) : BufInv m (toNumberState source lm) := by
  unfold toNumberState
  split
  · next hc =>
    refine ⟨by simp, fun _ => ?_⟩
    have hne := hbi.1 hc.1
    rcases hc.2 with hminus | hdig
    · exact absurd (hfc ▸ hminus) hne
    · simpa [rust_is_numeric, hfc] using hdig
  · exact hbi

theorem toIdentifierState_state_default (source : List Char) (x : LexerSt)
    (h : (toIdentifierState source x).state = State.DefaultState) :
    x.state = State.DefaultState := by
  unfold toIdentifierState at h
  split at h
  · simp at h
  · exact h

theorem toIdentifierState_state_number (source : List Char) (x : LexerSt)
    (h : (toIdentifierState source x).state = State.Number) :
    x.state = State.Number := by
  unfold toIdentifierState at h
  split at h
  · simp at h
  · exact h

/-- Invariant preservation through the classification block: tokens are
only ever appended, an appended numeric token has an all-digit payload
(the buffer head is a digit whenever a numeric literal is closed), and the
buffer/state either keep `BufInv` or are re-anchored to `EmptyState`. -/
theorem classifyRest_preserve (source : List Char) (lm : LexerSt) (c p : Char)
    (m : List Char)
    (hslice : sliceBytes source lm.buffer_st lm.buffer_ed = m)
    (hbi : BufInv m lm) :
    ∀ l₂, classifyRest source lm c p = .ok l₂ →
      (∀ t ∈ l₂.tokens, t ∈ lm.tokens ∨ numOk t) ∧
      l₂.buffer_ed = lm.buffer_ed ∧
      ((l₂.buffer_st = lm.buffer_st ∧ BufInv m l₂) ∨
       (l₂.buffer_st = lm.buffer_ed ∧ l₂.state = State.EmptyState)) := by
  have hfc : firstBufChar source lm = m.headD '\x00' := by
    unfold firstBufChar; rw [hslice]
  have hbiN : BufInv m (toNumberState source lm) :=
    toNumberState_bufInv source lm m hfc hbi
  intro l₂ h
  unfold classifyRest at h
  rw [hslice] at h
  by_cases h1 : (toNumberState source lm).state = State.Number ∧ ¬ rust_is_numeric p
  · rw [if_pos h1] at h
    have hdig : (m.headD '\x00').isDigit := hbiN.2 h1.1
    cases hnt : number_to_token m lm.line lm.column with
    | error e => rw [hnt] at h; exact Except.noConfusion h
    | ok tok =>
      rw [hnt] at h
      obtain rfl := (Except.ok.inj h).symm
      have htok : numOk tok := by
        unfold number_to_token at hnt
        split at hnt
        · next hvalid =>
          obtain rfl := (Except.ok.inj hnt).symm
          intro s hs
          cases hs
          exact numberValid_all_digits m hvalid hdig
        · exact Except.noConfusion hnt
      refine ⟨?_, by simp, Or.inr ⟨by simp, rfl⟩⟩
      intro t ht
      rcases List.mem_append.mp ht with h' | h'
      · exact Or.inl h'
      · simp at h'; subst h'; exact Or.inr htok
  · rw [if_neg h1] at h
    by_cases h2 : (toNumberState source lm).state = State.DefaultState ∧
        is_quote (firstBufChar source lm)
    · rw [if_pos h2] at h
      obtain rfl := (Except.ok.inj h).symm
      exact ⟨fun t ht => Or.inl (by simpa using ht), by simp,
        Or.inl ⟨by simp, by intro hD; simp at hD, by intro hN; simp at hN⟩⟩
    · rw [if_neg h2] at h
      by_cases h3 : (toNumberState source lm).state = State.QuotedString ∧ ¬ is_quote c
      · rw [if_pos h3] at h
        obtain rfl := (Except.ok.inj h).symm
        exact ⟨fun t ht => Or.inl (by simpa using ht), by simp, Or.inl ⟨by simp, hbiN⟩⟩
      · rw [if_neg h3] at h
        by_cases h4 : (toNumberState source lm).state = State.QuotedString ∧ is_quote c
        · rw [if_pos h4] at h
          obtain rfl := (Except.ok.inj h).symm
          refine ⟨?_, by simp, Or.inr ⟨by simp, rfl⟩⟩
          intro t ht
          rcases List.mem_append.mp ht with h' | h'
          · exact Or.inl h'
          · simp at h'; subst h'; exact Or.inr (numOk_of_not_number (by simp))
        · rw [if_neg h4] at h
          by_cases h5 : (toIdentifierState source (toNumberState source lm)).state =
              State.Identifier ∧ ¬ is_identifierable p
          · rw [if_pos h5] at h
            cases hs1 : statement_to_token m lm.line lm.column with
            | ok tok =>
              rw [hs1] at h
              obtain rfl := (Except.ok.inj h).symm
              obtain ⟨st, rfl⟩ := statement_to_token_shape m _ _ tok hs1
              refine ⟨?_, by simp, Or.inr ⟨by simp, rfl⟩⟩
              intro t ht
              rcases List.mem_append.mp ht with h' | h'
              · exact Or.inl h'
              · simp at h'; subst h'; exact Or.inr (numOk_of_not_number (by simp))
            | error e1 =>
              rw [hs1] at h
              cases hs2 : type_name_to_token m lm.line lm.column with
              | ok tok =>
                rw [hs2] at h
                obtain rfl := (Except.ok.inj h).symm
                obtain ⟨tn, rfl⟩ := type_name_to_token_shape m _ _ tok hs2
                refine ⟨?_, by simp, Or.inr ⟨by simp, rfl⟩⟩
                intro t ht
                rcases List.mem_append.mp ht with h' | h'
                · exact Or.inl h'
                · simp at h'; subst h'; exact Or.inr (numOk_of_not_number (by simp))
              | error e2 =>
                rw [hs2] at h
                obtain rfl := (Except.ok.inj h).symm
                refine ⟨?_, by simp, Or.inr ⟨by simp, rfl⟩⟩
                intro t ht
                rcases List.mem_append.mp ht with h' | h'
                · exact Or.inl h'
                · simp at h'; subst h'; exact Or.inr (numOk_of_not_number (by simp))
          · rw [if_neg h5] at h
            obtain rfl := (Except.ok.inj h).symm
            refine ⟨fun t ht => Or.inl (by simpa using ht), by simp,
              Or.inl ⟨by simp, ?_, ?_⟩⟩
            · intro hD
              exact hbiN.1 (toIdentifierState_state_default _ _ hD)
            · intro hN
              exact hbiN.2 (toIdentifierState_state_number _ _ hN)

/-- Invariant preservation through the single-character tables: a fresh
buffer holding the one character `c`.  A lone `'-'` always matches the
operator table, so the classification block is only ever entered with a
non-`'-'` first character. -/
theorem singlePhase_preserve (source : List Char) (l : LexerSt) (c p : Char)
    (hslice : sliceBytes source l.buffer_st l.buffer_ed = [c])
    (hnotnum : l.state ≠ State.Number) :
    ∀ l₂, singlePhase source l c p = .ok l₂ →
      (∀ t ∈ l₂.tokens, t ∈ l.tokens ∨ numOk t) ∧
      l₂.buffer_ed = l.buffer_ed ∧
      ((l₂.buffer_st = l.buffer_st ∧ BufInv [c] l₂) ∨
       (l₂.buffer_st = l.buffer_ed ∧ BufInv [] l₂)) := by
  intro l₂ h
  unfold singlePhase at h
  cases hsym : symbol_to_token c l.line l.column with
  | ok tok =>
    rw [hsym] at h
    obtain rfl := (Except.ok.inj h).symm
    obtain ⟨sy, rfl⟩ := symbol_to_token_shape c _ _ tok hsym
    refine ⟨?_, by simp, Or.inr ⟨by simp, fun _ => by decide, fun hN => absurd hN hnotnum⟩⟩
    intro t ht
    rcases List.mem_append.mp ht with h' | h'
    · exact Or.inl h'
    · simp at h'; subst h'; exact Or.inr (numOk_of_not_number (by simp))
  | error e1 =>
    rw [hsym] at h
    cases hop : operator_to_token c l.line l.column with
    | ok tok =>
      rw [hop] at h
      obtain rfl := (Except.ok.inj h).symm
      refine ⟨?_, by simp, Or.inr ⟨by simp, fun _ => by decide, fun hN => absurd hN hnotnum⟩⟩
      intro t ht
      rcases List.mem_append.mp ht with h' | h'
      · exact Or.inl h'
      · simp at h'; subst h'
        rcases operator_to_token_shape c _ _ t hop with ⟨o, rfl⟩ | ⟨a, rfl⟩
        · exact Or.inr (numOk_of_not_number (by simp))
        · exact Or.inr (numOk_of_not_number (by simp))
    | error e2 =>
      rw [hop] at h
      have hcm : c ≠ '-' := by
        intro hc
        rw [hc] at hop
        have h0 : operator_to_token '-' l.line l.column =
          .ok (Token.Operator Operator.Subtract) := rfl
        rw [h0] at hop
        exact Except.noConfusion hop
      have hres := classifyRest_preserve source { l with state := State.DefaultState }
        c p [c] (by simpa using hslice)
        ⟨fun _ => by simpa using hcm, fun hN => by simp at hN⟩ l₂ h
      obtain ⟨ht, hed2, hd⟩ := hres
      refine ⟨?_, by simpa using hed2, ?_⟩
      · intro t htm
        rcases ht t htm with h' | h'
        · exact Or.inl (by simpa using h')
        · exact Or.inr h'
      · rcases hd with ⟨hst2, hbi2⟩ | ⟨hst2, hstate⟩
        · exact Or.inl ⟨by simpa using hst2, hbi2⟩
        · refine Or.inr ⟨by simpa using hst2, fun hD => ?_, fun hN => ?_⟩
          · rw [hstate] at hD; exact absurd hD (by decide)
          · rw [hstate] at hN; exact absurd hN (by decide)

/-- Invariant preservation through the fresh-buffer block: the
double-symbol lookahead either switches to `Comment`, emits a non-numeric
double token and enters `DoubleState`, or falls back to the
single-character tables. -/
theorem freshPhase_preserve (source : List Char) (l : LexerSt) (c p : Char)
    (hslice : sliceBytes source l.buffer_st l.buffer_ed = [c])
    (hnotnum : l.state ≠ State.Number) :
    ∀ l₂, freshPhase source l c p = .ok l₂ →
      (∀ t ∈ l₂.tokens, t ∈ l.tokens ∨ numOk t) ∧
      l₂.buffer_ed = l.buffer_ed ∧
      ((l₂.buffer_st = l.buffer_st ∧ BufInv [c] l₂) ∨
       (l₂.buffer_st = l.buffer_ed ∧ BufInv [] l₂)) := by
  intro l₂ h
  unfold freshPhase at h
  by_cases hp : p ≠ '\x00'
  · rw [if_pos hp] at h
    cases hdd : double_symbol_to_token
        (sliceBytes source l.buffer_st (l.buffer_ed + p.utf8Size)) l.line l.column with
    | ok tok =>
      rw [hdd] at h
      dsimp only at h
      by_cases hc : tok = Token.Symbol Symbol.Comment
      · rw [if_pos hc] at h
        obtain rfl := (Except.ok.inj h).symm
        exact ⟨fun t ht => Or.inl (by simpa using ht), by simp,
          Or.inl ⟨by simp, fun hD => by simp at hD, fun hN => by simp at hN⟩⟩
      · rw [if_neg hc] at h
        obtain rfl := (Except.ok.inj h).symm
        refine ⟨?_, by simp,
          Or.inl ⟨by simp, fun hD => by simp at hD, fun hN => by simp at hN⟩⟩
        intro t ht
        rcases List.mem_append.mp ht with h' | h'
        · exact Or.inl h'
        · simp at h'; subst h'
          rcases double_symbol_to_token_shape _ _ _ t hdd with ⟨sy, rfl⟩ | ⟨o, rfl⟩
          · exact Or.inr (numOk_of_not_number (by simp))
          · exact Or.inr (numOk_of_not_number (by simp))
    | error e =>
      rw [hdd] at h
      exact singlePhase_preserve source l c p hslice hnotnum l₂ h
  · rw [if_neg hp] at h
    exact singlePhase_preserve source l c p hslice hnotnum l₂ h

/-- Invariant preservation through one full loop step. -/
theorem runBody_preserve (source rest : List Char) (c : Char) (l : LexerSt)
    (hR : Reach source (c :: rest) l) :
    ∀ l₂, runBody source (nextCharUpd l c) c (rest.headD '\x00') = .ok l₂ →
      Reach source rest l₂ ∧ ∀ t ∈ l₂.tokens, t ∈ l.tokens ∨ numOk t := by
  obtain ⟨preS, mid, hsrc, hst, hed, hbi⟩ := hR
  intro l₂ h
  have hsrc' : source = preS ++ (mid ++ [c]) ++ rest := by rw [hsrc]; simp
  have hslice1 : sliceBytes source (nextCharUpd l c).buffer_st
      (nextCharUpd l c).buffer_ed = mid ++ [c] := by
    have he : (nextCharUpd l c).buffer_ed = utf8Len preS + utf8Len (mid ++ [c]) := by
      simp; omega
    rw [he, (by simp [hst] : (nextCharUpd l c).buffer_st = utf8Len preS),
      hsrc', sliceBytes_decomp]
  unfold runBody at h
  by_cases hq1 : (nextCharUpd l c).state = State.DoubleState
  · rw [if_pos hq1] at h
    obtain rfl := (Except.ok.inj h).symm
    refine ⟨⟨preS ++ (mid ++ [c]), [], by rw [hsrc']; simp, by simp; omega,
      by simp, fun hD => by simp at hD, fun hN => by simp at hN⟩,
      fun t ht => Or.inl (by simpa using ht)⟩
  · rw [if_neg hq1] at h
    by_cases hq2 : (nextCharUpd l c).state = State.Comment
    · rw [if_pos hq2] at h
      by_cases hnl : c = '\n'
      · rw [if_pos hnl] at h
        obtain rfl := (Except.ok.inj h).symm
        refine ⟨⟨preS ++ (mid ++ [c]), [], by rw [hsrc']; simp, by simp; omega,
          by simp, fun hD => by simp at hD, fun hN => by simp at hN⟩,
          fun t ht => Or.inl (by simpa using ht)⟩
      · rw [if_neg hnl] at h
        obtain rfl := (Except.ok.inj h).symm
        refine ⟨⟨preS, mid ++ [c], hsrc', by simp [hst], by simp; omega,
          fun hD => ?_, fun hN => ?_⟩, fun t ht => Or.inl (by simpa using ht)⟩
        · rw [hq2] at hD; exact absurd hD (by decide)
        · rw [hq2] at hN; exact absurd hN (by decide)
    · rw [if_neg hq2] at h
      by_cases hq3 : rust_is_whitespace c = true ∧
          (nextCharUpd l c).state ≠ State.QuotedString
      · rw [if_pos hq3] at h
        obtain rfl := (Except.ok.inj h).symm
        refine ⟨⟨preS ++ (mid ++ [c]), [], by rw [hsrc']; simp, by simp; omega,
          by simp, fun hD => by simp at hD, fun hN => by simp at hN⟩,
          fun t ht => Or.inl (by simpa using ht)⟩
      · rw [if_neg hq3] at h
        by_cases hfresh : (nextCharUpd l c).buffer_ed =
            (nextCharUpd l c).buffer_st + c.utf8Size
        · rw [if_pos hfresh] at h
          have hmid0 : mid = [] := by
            apply utf8Len_eq_zero
            simp at hfresh
            omega
          subst hmid0
          simp only [utf8Len_nil, Nat.add_zero] at hed
          have hnn : (nextCharUpd l c).state ≠ State.Number := by
            intro hN
            have := hbi.2 (by simpa using hN)
            exact absurd this (by decide)
          obtain ⟨ht, hed2, hd⟩ := freshPhase_preserve source (nextCharUpd l c) c
            (rest.headD '\x00') (by simpa using hslice1) hnn l₂ h
          refine ⟨?_, ?_⟩
          · rcases hd with ⟨hst2, hbi2⟩ | ⟨hst2, hbi2⟩
            · exact ⟨preS, [c], by simpa using hsrc', by simp [hst2, hst],
                by simp [hst2, hed2]; omega, hbi2.1, hbi2.2⟩
            · exact ⟨preS ++ [c], [], by rw [hsrc']; simpa,
                by simp [hst2]; omega, by simp [hed2, hst2], hbi2.1, hbi2.2⟩
          · intro t htm
            rcases ht t htm with h' | h'
            · exact Or.inl (by simpa using h')
            · exact Or.inr h'
        · rw [if_neg hfresh] at h
          have hmidne : mid ≠ [] := by
            intro h0
            subst h0
            simp at hed
            apply hfresh
            simp
            omega
          have hbi1 : BufInv (mid ++ [c]) (nextCharUpd l c) := by
            obtain ⟨m0, mid', rfl⟩ := List.exists_cons_of_ne_nil hmidne
            exact ⟨fun hD => by simpa using hbi.1 (by simpa using hD),
              fun hN => by simpa using hbi.2 (by simpa using hN)⟩
          obtain ⟨ht, hed2, hd⟩ := classifyRest_preserve source (nextCharUpd l c) c
            (rest.headD '\x00') (mid ++ [c]) hslice1 hbi1 l₂ h
          refine ⟨?_, ?_⟩
          · rcases hd with ⟨hst2, hbi2⟩ | ⟨hst2, hstate⟩
            · exact ⟨preS, mid ++ [c], hsrc', by simp [hst2, hst],
                by simp [hst2, hed2]; omega, hbi2.1, hbi2.2⟩
            · exact ⟨preS ++ (mid ++ [c]), [], by rw [hsrc']; simp,
                by simp [hst2]; omega, by simp [hed2, hst2],
                fun hD => by rw [hstate] at hD; exact absurd hD (by decide),
                fun hN => by rw [hstate] at hN; exact absurd hN (by decide)⟩
          · intro t htm
            rcases ht t htm with h' | h'
            · exact Or.inl (by simpa using h')
            · exact Or.inr h'

/-- Invariant preservation over the whole loop: every token in the final
accumulator was already present or satisfies `numOk`. -/
theorem runLoop_preserve (source : List Char) : ∀ (rest : List Char) (l : LexerSt),
    Reach source rest l → ∀ l', runLoop source rest l = .ok l' →
    ∀ t ∈ l'.tokens, t ∈ l.tokens ∨ numOk t := by
  intro rest
  induction rest with
  | nil =>
    intro l _ l' h
    obtain rfl := (Except.ok.inj h).symm
    exact fun t ht => Or.inl ht
  | cons c rest ih =>
    intro l hR l' h
    simp only [runLoop] at h
    cases hrb : runBody source (nextCharUpd l c) c (rest.headD '\x00') with
    | error e => rw [hrb] at h; exact Except.noConfusion h
    | ok l₂ =>
      rw [hrb] at h
      obtain ⟨hR2, htr⟩ := runBody_preserve source rest c l hR l₂ hrb
      intro t ht
      rcases ih l₂ hR2 l' h t ht with h' | h'
      · rcases htr t h' with h'' | h''
        · exact Or.inl h''
        · exact Or.inr h''
      · exact Or.inr h'

theorem report_error_ne_ok (source : List Char) (l : LexerSt) (e : LexcialError)
    (toks : List Token) : report_error source l e ≠ LexOutcome.ok toks := by
  unfold report_error
  split <;> simp

/-- C8: the scanner never emits a negative numeric literal: every numeric
token in a successfully returned token sequence has an all-digit payload
(a `'-'` opening a fresh lexeme always matches the single-character
operator table before the number rule can see it), and `"-5"` scans to the
subtraction operator followed by the number `5`. -/
theorem claim8_no_negative_numbers :
    (∀ (source : List Char) (toks : List Token),
      runLex source = LexOutcome.ok toks →
      ∀ s, Token.TypeValue (TypeValue.Number s) ∈ toks →
        s.data.all Char.isDigit = true) ∧
    runLex "-5".data = LexOutcome.ok
      [Token.Operator Operator.Subtract, Token.TypeValue (TypeValue.Number "5")] := by
  refine ⟨?_, by decide⟩
  intro source toks h s hs
  unfold runLex runFrom at h
  cases hloop : runLoop source source initLexer with
  | error e =>
    rw [hloop] at h
    exact absurd (by simpa using h) (report_error_ne_ok source e.2 e.1 toks)
  | ok l' =>
    rw [hloop] at h
    simp only [] at h
    by_cases hq : l'.state = State.QuotedString
    · rw [if_pos hq] at h
      exact absurd h (report_error_ne_ok source l' _ toks)
    · rw [if_neg hq] at h
      obtain rfl : toks = l'.tokens := by
        have := LexOutcome.ok.inj h
        exact this.symm
      have hreach : Reach source source initLexer :=
        ⟨[], [], by simp, rfl, rfl, fun hD => by simp [initLexer] at hD,
         fun hN => by simp [initLexer] at hN⟩
      rcases runLoop_preserve source source initLexer hreach l' hloop
          (Token.TypeValue (TypeValue.Number s)) hs with h' | h'
      · simp [initLexer] at h'
      · exact h' s rfl

/-- Witness for C8: the number token of `"-5"` carries the all-digit
payload `5`. -/
theorem claim8_witness : ("5" : String).data.all Char.isDigit = true :=
  claim8_no_negative_numbers.1 "-5".data
    [Token.Operator Operator.Subtract, Token.TypeValue (TypeValue.Number "5")]
    claim8_no_negative_numbers.2 "5" (by simp)
